import Mathlib

/-!
Verification development for the GitMonitorLLM repository.

The repository watches GitLab repositories for new commits, discovers context
files, asks a completion API to analyse each change, notifies a chat channel,
and records processed commits in a SQLite ledger.  The definitions below are a
shallow embedding of the pure logic of the four source files:

* `main.py`      — `DBManager`, `GitLabClient.fetch_recent_commits`,
                   `LLMAnalyzer.analyze_changes` / `_analyze_batch`,
                   `CommitMonitor.monitor_project`, context-file dedup in
                   `get_commit_details`.
* `code_analyzer.py`     — `CodeAnalyzer.analyze_commit`,
                   `CodeAnalyzer._extract_json_response`.
* `context_discovery.py` — `ContextDiscovery.discover_required_files`,
                   `ContextDiscovery._extract_json_response`.
* `smart_context_analyzer.py` — the same batching loop with a smaller budget,
                   and `SmartContextAnalyzer._extract_json_response`.

External collaborators (the GitLab API, the completion API, the Telegram bot,
SQLite) are modelled as oracles / pure data: a completion call is a value of
`Except String String` (transport error or response body), file fetching is a
function `String → Option String`, and the SQLite `commits` table is a list of
rows queried exactly like the SQL in `DBManager`.
-/

/-! ## JSON values, modelling what Python `json.loads` produces -/

/-- JSON values.  Python dicts are modelled as association lists preserving
insertion order (Python 3.7+ dicts are ordered). -/
inductive Json where
  | null : Json
  | bool : Bool → Json
  | num : Int → Json
  | str : String → Json
  | arr : List Json → Json
  | obj : List (String × Json) → Json

/-- Key lookup in a JSON object's field list (first match, like a dict). -/
def lookupField : List (String × Json) → String → Option Json
  | [], _ => none
  | (k', v) :: rest, k => if k' == k then some v else lookupField rest k

/-- Python dict item assignment `d[k] = v`: replace an existing key in place,
otherwise append at the end (insertion order). -/
def setField : List (String × Json) → String → Json → List (String × Json)
  | [], k, v => [(k, v)]
  | (k', v') :: rest, k, v =>
    if k' == k then (k, v) :: rest else (k', v') :: setField rest k v

/-- Python truthiness of a JSON value (`if not required_files:`). -/
def jsonFalsy : Json → Bool
  | Json.null => true
  | Json.bool b => !b
  | Json.num n => n == 0
  | Json.str s => s == ""
  | Json.arr xs => xs.isEmpty
  | Json.obj fs => fs.isEmpty

/-- Contiguous-sublist test (Python `sub in s` for strings). -/
def hasSublist (pat : List Char) : List Char → Bool
  | [] => pat.isPrefixOf ([] : List Char)
  | c :: rest => pat.isPrefixOf (c :: rest) || hasSublist pat rest

/-- Python `key in value`.  Key membership for dicts, substring test for
strings, element membership for lists; `none` models the `TypeError` raised by
`in` on numbers, booleans and `None`. -/
def pyContains (j : Json) (k : String) : Option Bool :=
  match j with
  | Json.obj fields => some (lookupField fields k).isSome
  | Json.str s => some (hasSublist k.toList s.toList)
  | Json.arr xs =>
    some (xs.any (fun x => match x with | Json.str s => s == k | _ => false))
  | _ => none

/-- Python `value[k] = v`.  Only dicts support item assignment; `none` models
the `TypeError` raised for every other type. -/
def pySetItem (j : Json) (k : String) (v : Json) : Option Json :=
  match j with
  | Json.obj fields => some (Json.obj (setField fields k v))
  | _ => none

/-! ## A model of Python `json.loads` (strict JSON, double-quoted strings)

The parser covers the JSON subset the analysers exchange: objects, arrays,
double-quoted strings with the common escapes, integer literals, `true`,
`false`, `null`.  Single-quoted pseudo-JSON is rejected exactly as
`json.loads` rejects it (that is what the repair pass in
`_extract_json_response` exists for).  Floats and `\u` escapes are not needed
by any claim and are not modelled.  Recursion is by fuel; `jsonLoadsL` passes
more fuel than any input can consume, so fuel exhaustion never decides a
result for a well-formed input. -/

/-- JSON whitespace accepted by `json.loads` between tokens. -/
def isJsonWs (c : Char) : Bool :=
  c == ' ' || c == '\t' || c == '\n' || c == '\r'

def dropJsonWs (l : List Char) : List Char := l.dropWhile isJsonWs

/-- JSON string escapes (`\"`, `\\`, `\/`, `\n`, `\t`, `\r`, `\b`, `\f`). -/
def escChar (c : Char) : Option Char :=
  if c == '\x22' then some '\x22'
  else if c == '\\' then some '\\'
  else if c == '/' then some '/'
  else if c == 'n' then some '\n'
  else if c == 't' then some '\t'
  else if c == 'r' then some '\r'
  else if c == 'b' then some (Char.ofNat 8)
  else if c == 'f' then some (Char.ofNat 12)
  else none

/-- Body of a JSON string after the opening quote: returns the decoded
characters and the remainder after the closing quote. -/
def parseStrAux : List Char → Option (List Char × List Char)
  | [] => none
  | c :: rest =>
    if c == '\x22' then some ([], rest)
    else if c == '\\' then
      match rest with
      | [] => none
      | e :: rest2 =>
        match escChar e with
        | none => none
        | some ch =>
          match parseStrAux rest2 with
          | none => none
          | some (acc, rem) => some (ch :: acc, rem)
    else
      match parseStrAux rest with
      | none => none
      | some (acc, rem) => some (c :: acc, rem)

def digitVal (c : Char) : Nat := c.toNat - 48

def parseNatAux : List Char → Nat → Nat × List Char
  | [], acc => (acc, [])
  | c :: rest, acc =>
    if c.isDigit then parseNatAux rest (acc * 10 + digitVal c) else (acc, c :: rest)

/-- Integer literals, with optional leading minus sign. -/
def parseNumber : List Char → Option (Json × List Char)
  | [] => none
  | '-' :: c :: rest =>
    if c.isDigit then
      let (n, rem) := parseNatAux rest (digitVal c)
      some (Json.num (-(n : Int)), rem)
    else none
  | c :: rest =>
    if c.isDigit then
      let (n, rem) := parseNatAux rest (digitVal c)
      some (Json.num (n : Int), rem)
    else none

def litChars (s : String) (l : List Char) : Bool := s.toList.isPrefixOf l

mutual

/-- Parse one JSON value (leading whitespace allowed); returns the value and
the unconsumed remainder. -/
def parseValue (fuel : Nat) (s : List Char) : Option (Json × List Char) :=
  match fuel with
  | 0 => none
  | Nat.succ f =>
    match dropJsonWs s with
    | [] => none
    | '\x7b' :: rest =>
      match dropJsonWs rest with
      | '\x7d' :: rem => some (Json.obj [], rem)
      | s' => parseMembers f s' []
    | '[' :: rest =>
      match dropJsonWs rest with
      | ']' :: rem => some (Json.arr [], rem)
      | s' => parseElements f s' []
    | '\x22' :: rest =>
      match parseStrAux rest with
      | none => none
      | some (cs, rem) => some (Json.str (String.mk cs), rem)
    | c :: rest =>
      if litChars "true" (c :: rest) then some (Json.bool true, (c :: rest).drop 4)
      else if litChars "false" (c :: rest) then some (Json.bool false, (c :: rest).drop 5)
      else if litChars "null" (c :: rest) then some (Json.null, (c :: rest).drop 4)
      else parseNumber (c :: rest)

/-- Members of an object after at least one member is required. -/
def parseMembers (fuel : Nat) (s : List Char) (acc : List (String × Json)) :
    Option (Json × List Char) :=
  match fuel with
  | 0 => none
  | Nat.succ f =>
    match s with
    | '\x22' :: rest =>
      match parseStrAux rest with
      | none => none
      | some (key, rem) =>
        match dropJsonWs rem with
        | ':' :: rem2 =>
          match parseValue f (dropJsonWs rem2) with
          | none => none
          | some (v, rem3) =>
            match dropJsonWs rem3 with
            | ',' :: rem4 => parseMembers f (dropJsonWs rem4) (acc ++ [(String.mk key, v)])
            | '\x7d' :: rem4 => some (Json.obj (acc ++ [(String.mk key, v)]), rem4)
            | _ => none
        | _ => none
    | _ => none

/-- Elements of an array after at least one element is required. -/
def parseElements (fuel : Nat) (s : List Char) (acc : List Json) :
    Option (Json × List Char) :=
  match fuel with
  | 0 => none
  | Nat.succ f =>
    match parseValue f s with
    | none => none
    | some (v, rem) =>
      match dropJsonWs rem with
      | ',' :: rem2 => parseElements f (dropJsonWs rem2) (acc ++ [v])
      | ']' :: rem2 => some (Json.arr (acc ++ [v]), rem2)
      | _ => none

end

/-- `json.loads` on a character list: parse one value, then require only
whitespace to remain. -/
def jsonLoadsL (cs : List Char) : Option Json :=
  match parseValue (cs.length + 2) cs with
  | none => none
  | some (j, rem) => if dropJsonWs rem = [] then some j else none

def jsonLoads (s : String) : Option Json := jsonLoadsL s.toList

/-! ## The extraction regexes of `_extract_json_response`

`_extract_json_response` (identical in `code_analyzer.py`,
`context_discovery.py` and `smart_context_analyzer.py`) first looks for a
fenced code block with `re.search(r'```(?:json)?\s*(.*?)\s*```', text,
re.DOTALL)`, then for a brace span with `re.search(r'({[\s\S]*})', text)`,
then falls back to the whole text.  The two searches are modelled directly:

* the fenced-block regex matches at the first triple-backtick; the optional
  literal `json` is consumed greedily, `\s*` absorbs the surrounding
  whitespace, and the lazy group captures up to the first closing fence with
  trailing whitespace stripped;
* the brace regex captures from the first brace-open that has a brace-close
  after it up to the last brace-close (greedy `[\s\S]*`).
-/

/-- Python regex `\s` for ASCII: space, tab, newline, carriage return,
vertical tab, form feed.  Also what `str.strip()` removes. -/
def isWsChar (c : Char) : Bool :=
  c == ' ' || c == '\t' || c == '\n' || c == '\r' ||
  c == Char.ofNat 11 || c == Char.ofNat 12

/-- Split a character list at the first occurrence of `pat`: the part before
the occurrence and the part after it. -/
def splitOnce (pat : List Char) : List Char → Option (List Char × List Char)
  | [] => if pat.isPrefixOf ([] : List Char) then some ([], []) else none
  | c :: rest =>
    if pat.isPrefixOf (c :: rest) then some ([], (c :: rest).drop pat.length)
    else
      match splitOnce pat rest with
      | none => none
      | some (pre, post) => some (c :: pre, post)

def trimTrailing (l : List Char) : List Char :=
  (l.reverse.dropWhile isWsChar).reverse

/-- Python `str.strip()`. -/
def stripWs (l : List Char) : List Char :=
  trimTrailing (l.dropWhile isWsChar)

def fenceChars : List Char := "```".toList

def jsonWordChars : List Char := "json".toList

/-- The fenced-code-block search `re.search(r'```(?:json)?\s*(.*?)\s*```')`. -/
def extractFenced (s : List Char) : Option (List Char) :=
  match splitOnce fenceChars s with
  | none => none
  | some (_, afterOpen) =>
    let afterLang :=
      if jsonWordChars.isPrefixOf afterOpen then afterOpen.drop 4 else afterOpen
    let body := afterLang.dropWhile isWsChar
    match splitOnce fenceChars body with
    | none => none
    | some (inner, _) => some (trimTrailing inner)

/-- The brace-span search `re.search(r'({[\s\S]*})')`: first brace-open to
last brace-close, when the close comes after the open. -/
def extractBraces (s : List Char) : Option (List Char) :=
  match splitOnce ['\x7b'] s with
  | none => none
  | some (_, post) =>
    match splitOnce ['\x7d'] post.reverse with
    | none => none
    | some (_, revBefore) => some ('\x7b' :: (revBefore.reverse ++ ['\x7d']))

/-- The string handed to the primary `json.loads` call: the fenced block if
present, else the brace span, else the whole response. -/
def primaryCandidate (response : List Char) : List Char :=
  match extractFenced response with
  | some t => t
  | none =>
    match extractBraces response with
    | some t => t
    | none => response

/-- The repair pass: `re.sub(r'[\n\r\t]', '', response_text)` followed by
`.replace("'", '"')`.  It always runs on the whole original response. -/
def cleanedText (s : List Char) : List Char :=
  (s.filter (fun c => !(c == '\n' || c == '\r' || c == '\t'))).map
    (fun c => if c == '\x27' then '\x22' else c)

/-! ## `_extract_json_response`, analyzer and discovery variants

`CodeAnalyzer._extract_json_response` fills the keys `issues` / `summary`
after a successful primary parse; `ContextDiscovery._extract_json_response`
fills `required_files` / `explanation`.  In both, the repair branch returns
whatever the cleaned text parses to, with no key check, and the terminal
branch returns a default-filled object.  A parsed value that is not a dict
makes the key-filling item assignment raise `TypeError`, caught by the generic
`except Exception` handler; its message interpolates the exception text,
modelled here as a fixed marker string. -/

def analyzerParseErrorResult : Json :=
  Json.obj [("issues", Json.arr []), ("summary", Json.str "Ошибка при анализе ответа LLM")]

def analyzerProcessErrorResult : Json :=
  Json.obj [("issues", Json.arr []), ("summary", Json.str "Ошибка при обработке ответа: TypeError")]

/-- Lines 307–315 of `code_analyzer.py`: fill `issues` and `summary` when
missing; `none` models a `TypeError` from `in` / item assignment on a
non-dict. -/
def normalizeAnalyzer (j : Json) : Option Json :=
  match pyContains j "issues" with
  | none => none
  | some b1 =>
    match (if b1 then some j else pySetItem j "issues" (Json.arr [])) with
    | none => none
    | some j1 =>
      match pyContains j1 "summary" with
      | none => none
      | some b2 =>
        if b2 then some j1
        else pySetItem j1 "summary" (Json.str "Анализ выполнен, детали не предоставлены")

/-- `CodeAnalyzer._extract_json_response` (code_analyzer.py lines 276–339). -/
def extract_json_response_analyzer (response : String) : Json :=
  let cs := response.toList
  match jsonLoadsL (primaryCandidate cs) with
  | some j =>
    match normalizeAnalyzer j with
    | some r => r
    | none => analyzerProcessErrorResult
  | none =>
    match jsonLoadsL (cleanedText cs) with
    | some r => r
    | none => analyzerParseErrorResult

def discoveryParseErrorResult : Json :=
  Json.obj [("required_files", Json.arr []), ("explanation", Json.str "Ошибка при анализе ответа LLM")]

def discoveryProcessErrorResult : Json :=
  Json.obj [("required_files", Json.arr []), ("explanation", Json.str "Ошибка при обработке ответа: TypeError")]

/-- Lines 204–209 of `context_discovery.py`: fill `required_files` and
`explanation` when missing. -/
def normalizeDiscovery (j : Json) : Option Json :=
  match pyContains j "required_files" with
  | none => none
  | some b1 =>
    match (if b1 then some j else pySetItem j "required_files" (Json.arr [])) with
    | none => none
    | some j1 =>
      match pyContains j1 "explanation" with
      | none => none
      | some b2 =>
        if b2 then some j1
        else pySetItem j1 "explanation" (Json.str "Объяснение не предоставлено")

/-- `ContextDiscovery._extract_json_response` (context_discovery.py lines
173–235). -/
def extract_json_response_discovery (response : String) : Json :=
  let cs := response.toList
  match jsonLoadsL (primaryCandidate cs) with
  | some j =>
    match normalizeDiscovery j with
    | some r => r
    | none => discoveryProcessErrorResult
  | none =>
    match jsonLoadsL (cleanedText cs) with
    | some r => r
    | none => discoveryParseErrorResult

/-- `SmartContextAnalyzer._extract_json_response` (smart_context_analyzer.py
lines 293–340): the same extraction and repair passes as the other two
variants, but with no key filling at all — a successfully parsed value is
returned unchanged on both paths — and with an `error`-keyed dictionary as the
terminal default.  Its `try` block contains only the regex searches and
`json.loads`, which raise nothing but `JSONDecodeError` on a string input, so
the generic `except Exception` branch of the source is unreachable and not
modelled. -/
def extract_json_response_smart (response : String) : Json :=
  let cs := response.toList
  match jsonLoadsL (primaryCandidate cs) with
  | some r => r
  | none =>
    match jsonLoadsL (cleanedText cs) with
    | some r => r
    | none => Json.obj [("error", Json.str "Ошибка при анализе ответа LLM")]

/-! ## `ContextDiscovery.discover_required_files` and
`CodeAnalyzer.analyze_commit`

The completion call is an external collaborator: it is modelled as a value of
`Except String String` — either a transport error (the exception caught by the
`try`/`except` around `chat.completions.create`) or the response text.
`_analyze_code_changes` also wraps a completion call; `analyze_commit` is
therefore parameterised by the analysis function it invokes, which makes
visible exactly which modified and context files are handed to analysis. -/

/-- `ContextDiscovery.discover_required_files` (context_discovery.py lines
50–94): on a transport error it returns the fail-open dictionary, otherwise it
parses the response text. -/
def discover_required_files (completion : Except String String) : Json :=
  match completion with
  | Except.error e =>
    Json.obj [("required_files", Json.arr []),
              ("explanation", Json.str ("Ошибка при определении контекста: " ++ e))]
  | Except.ok text => extract_json_response_discovery text

/-- A context file as assembled by `CodeAnalyzer.analyze_commit` (path,
content, and the priority value taken from the discovery response, default
`5`). -/
structure ContextFileCA where
  path : String
  content : String
  priority : Json

/-- The result dictionary of `CodeAnalyzer.analyze_commit`: `status` plus
`analysis` (completed), `message` (error), and the optional `context_files`
path list present only on the with-context branch. -/
structure CommitAnalysis where
  status : String
  analysis : Option Json
  message : Option String
  context_files : Option (List String)

/-- The fetch loop of `analyze_commit` (code_analyzer.py lines 90–111): for
each entry of `required_files`, read `path` and `priority`, fetch the content,
and append a context file when content was obtained.  Missing files and
per-file fetch errors are skipped.  A non-dict entry makes `file_info.get`
raise `AttributeError` (outside the per-file `try`), modelled as `none`. -/
def fetchContextLoop (getContent : String → Option String) :
    List Json → Option (List ContextFileCA)
  | [] => some []
  | Json.obj fields :: rest =>
    let priority := (lookupField fields "priority").getD (Json.num 5)
    let here :=
      match lookupField fields "path" with
      | some (Json.str p) =>
        match getContent p with
        | some content => [ContextFileCA.mk p content priority]
        | none => []
      | _ => []
    match fetchContextLoop getContent rest with
    | some tail => some (here ++ tail)
    | none => none
  | _ :: _ => none

/-- `CodeAnalyzer.analyze_commit` (code_analyzer.py lines 52–130).
`analyze` stands for `_analyze_code_changes` (it never raises: it catches its
own errors and returns an error dictionary); `repoClient` is the optional
repository client.  The `error` results model the exceptions that escape to
the outer `except` handler, whose message interpolates the exception text. -/
def analyze_commit {α : Type} (completion : Except String String)
    (analyze : List α → List ContextFileCA → Json)
    (repoClient : Option (String → Option String))
    (modified_files : List α) : CommitAnalysis :=
  match discover_required_files completion with
  | Json.obj fields =>
    let required := (lookupField fields "required_files").getD (Json.arr [])
    if jsonFalsy required then
      CommitAnalysis.mk "completed" (some (analyze modified_files [])) none none
    else
      match required with
      | Json.arr reqs =>
        let fetched :=
          match repoClient with
          | some getContent => fetchContextLoop getContent reqs
          | none => some []
        match fetched with
        | some context_files =>
          CommitAnalysis.mk "completed"
            (some (analyze modified_files context_files)) none
            (some (context_files.map (fun f => f.path)))
        | none => CommitAnalysis.mk "error" none (some "AttributeError") none
      | _ => CommitAnalysis.mk "error" none (some "TypeError") none
  | _ => CommitAnalysis.mk "error" none (some "AttributeError") none

/-! ## The batch planner of `LLMAnalyzer.analyze_changes`

`main.py` lines 294–338 (budget 120000) and `smart_context_analyzer.py`
lines 438–481 (budget 30000) contain the same greedy loop, run only when more
than 3 files changed. -/

/-- A changed file as assembled by `get_commit_details`: old/new content may
be absent when the file was created or deleted. -/
structure ChangedFile where
  path : String
  diff : String
  old_content : Option String
  new_content : Option String
deriving DecidableEq

/-- `file_size = len(file['diff']) + len(file['new_content'] or '') +
len(file['old_content'] or '')`. -/
def fileSize (f : ChangedFile) : Nat :=
  f.diff.length + (f.new_content.getD "").length + (f.old_content.getD "").length

def batchTotal (batch : List ChangedFile) : Nat := (batch.map fileSize).sum

/-- The greedy accumulation loop: `cur`/`curSize` are `current_batch` /
`current_size`; after the loop a non-empty `current_batch` is appended. -/
def packGo (budget : Nat) : List ChangedFile → List ChangedFile → Nat →
    List (List ChangedFile)
  | [], cur, _ => if cur = [] then [] else [cur]
  | f :: rest, cur, curSize =>
    if budget < curSize + fileSize f ∧ cur ≠ [] then
      cur :: packGo budget rest [f] (fileSize f)
    else
      packGo budget rest (cur ++ [f]) (curSize + fileSize f)

/-- The batches built by `analyze_changes` for a given budget. -/
def makeBatches (budget : Nat) (files : List ChangedFile) :
    List (List ChangedFile) :=
  packGo budget files [] 0

/-- The batch budget in `main.py` (`max_batch_size = 120000`). -/
def MAX_BATCH_SIZE_MAIN : Nat := 120000

/-- The batch budget in `smart_context_analyzer.py` (`max_batch_size =
30000`). -/
def MAX_BATCH_SIZE_SMART : Nat := 30000

/-- The request plan of `analyze_changes`: with more than 3 modified files the
greedy batches, otherwise a single request holding every file, with no size
check at all (`if len(modified_files) > 3: ... else: return await
self._analyze_batch(modified_files, ...)`). -/
def analyze_changes_plan (budget : Nat) (files : List ChangedFile) :
    List (List ChangedFile) :=
  if 3 < files.length then makeBatches budget files else [files]

/-- Concatenation of a batch list, for stating that batching partitions the
input. -/
def joinBatches (l : List (List ChangedFile)) : List ChangedFile :=
  l.foldr (fun a b => a ++ b) []

/-! ## The idempotency ledger (`DBManager`, main.py lines 67–101)

The SQLite `commits` table has primary key `(project, commit_id)` and columns
`processed INTEGER` and `timestamp`.  It is modelled as a list of rows;
`INSERT OR REPLACE` removes any row with the same key and prepends the new
one, and `SELECT` takes the first matching row. -/

structure LedgerRow where
  project : String
  commit_id : String
  processed : Int
  timestamp : Int
deriving DecidableEq

def keyMatches (project commit_id : String) (r : LedgerRow) : Bool :=
  r.project == project && r.commit_id == commit_id

/-- `DBManager.is_processed`: `SELECT processed FROM commits WHERE project = ?
AND commit_id = ?`, returning the stored flag of the first matching row or
`None` when there is no row. -/
def is_processed (db : List LedgerRow) (project commit_id : String) : Option Int :=
  (db.find? (keyMatches project commit_id)).map (fun r => r.processed)

/-- `DBManager.mark_processed`: `INSERT OR REPLACE INTO commits ...` with the
given flag (the call sites always use the default `processed=1`). -/
def mark_processed (db : List LedgerRow) (project commit_id : String)
    (timestamp : Int) (processed : Int) : List LedgerRow :=
  LedgerRow.mk project commit_id processed timestamp ::
    db.filter (fun r => !keyMatches project commit_id r)

/-! ## `GitLabClient.fetch_recent_commits` and the orchestrator loop

A GitLab commit is modelled with its id, parsed creation time (an integer
timestamp — `parse_datetime` is treated as total, since no claim concerns
date-format errors), title and author. -/

structure Commit where
  id : String
  created_at : Int
  title : String
  author_name : String
deriving DecidableEq

/-- `GitLabClient.fetch_recent_commits` (main.py lines 115–140): of the
commits listed by the API, keep those strictly newer than `start_time` whose
key has no ledger row at all (`is_processed ... is None`). -/
def fetch_recent_commits (db : List LedgerRow) (project_path : String)
    (start_time : Int) (commits : List Commit) : List Commit :=
  commits.filter (fun c =>
    start_time < c.created_at && (is_processed db project_path c.id).isNone)

/-- Outcome of the per-commit work inside the `for` body of `monitor_project`,
abstracting the external calls:
* `noFiles`      — `get_commit_details` returned no modified files;
* `analysisNone` — `analyze_changes` returned `(None, None)` (API status not
  200, missing `choices`, or an exception inside `_analyze_batch`);
* `analyzed`     — analysis produced a description and an errors string;
* `raised`       — an unexpected exception escaped during the commit's
  processing (before any notification was sent). -/
inductive StepOutcome where
  | noFiles : StepOutcome
  | analysisNone : StepOutcome
  | analyzed : String → String → StepOutcome
  | raised : String → StepOutcome
deriving DecidableEq

inductive EventKind where
  | analyze : EventKind
  | notify : EventKind
  | notifyError : EventKind
deriving DecidableEq

/-- An externally visible action of the orchestrator, tagged with the commit
it concerns: an invocation of the analysis engine, a Telegram notification for
an analysed commit, or a Telegram error notification. -/
structure Event where
  kind : EventKind
  project : String
  commit_id : String
  payload : String
deriving DecidableEq

def shortId (s : String) : String := String.mk (s.toList.take 7)

/-- The notification text assembled in `monitor_project` (main.py lines
543–557); the error suffix is appended only for a non-empty errors string
other than `Нет явных ошибок`. -/
def formatMsg (gitlab_url project : String) (c : Commit) (desc errors : String) :
    String :=
  let commit_url := gitlab_url ++ "/" ++ project ++ "/-/commit/" ++ c.id
  let base := project ++ ": [" ++ shortId c.id ++ "](" ++ commit_url ++ ")\n" ++
    c.title ++ "\nАвтор: " ++ c.author_name ++ "\nИзменения: " ++ desc ++ "\n"
  if errors ≠ "" ∧ errors ≠ "Нет явных ошибок" then
    base ++ "⚠️ Ошибки: " ++ errors
  else base

/-- The error notification sent from the `except` handler of the `for` body
(main.py line 564). -/
def errorNotification (project commit_id msg : String) : String :=
  "Ошибка обработки коммита " ++ shortId commit_id ++ " в " ++ project ++ ": " ++ msg

/-- One iteration of the `for commit in reversed(commits)` body of
`CommitMonitor.monitor_project` (main.py lines 517–570): every path —
no files, failed analysis, successful analysis, and the exception handler —
ends by marking the commit processed with flag 1. -/
def processCommit (world : String → String → StepOutcome)
    (gitlab_url project : String) (db : List LedgerRow) (c : Commit) :
    List LedgerRow × List Event :=
  match world project c.id with
  | StepOutcome.noFiles =>
    (mark_processed db project c.id c.created_at 1, [])
  | StepOutcome.analysisNone =>
    (mark_processed db project c.id c.created_at 1,
     [Event.mk EventKind.analyze project c.id ""])
  | StepOutcome.analyzed desc errors =>
    (mark_processed db project c.id c.created_at 1,
     [Event.mk EventKind.analyze project c.id "",
      Event.mk EventKind.notify project c.id (formatMsg gitlab_url project c desc errors)])
  | StepOutcome.raised msg =>
    (mark_processed db project c.id c.created_at 1,
     [Event.mk EventKind.notifyError project c.id (errorNotification project c.id msg)])

/-- The commit loop, threading the ledger and accumulating events in order. -/
def runLoop (world : String → String → StepOutcome)
    (gitlab_url project : String) :
    List LedgerRow → List Commit → List LedgerRow × List Event
  | db, [] => (db, [])
  | db, c :: cs =>
    let step := processCommit world gitlab_url project db c
    let rest := runLoop world gitlab_url project step.1 cs
    (rest.1, step.2 ++ rest.2)

/-- `CommitMonitor.monitor_project`: fetch the unprocessed recent commits once
against the current ledger, then process them oldest-first
(`for commit in reversed(commits)`). -/
def monitor_project (world : String → String → StepOutcome)
    (gitlab_url project : String) (db : List LedgerRow) (start_time : Int)
    (recent : List Commit) : List LedgerRow × List Event :=
  runLoop world gitlab_url project db
    (fetch_recent_commits db project start_time recent).reverse

/-! ## `LLMAnalyzer._analyze_batch` (main.py lines 340–391)

The HTTP call is modelled as `Except String ApiResponse`; the `(None, None)`
returns are `none`. -/

structure ApiResponse where
  status : Nat
  choices : List String
deriving DecidableEq

def markerChars : List Char := "Ошибки:".toList

/-- `analysis.split("Ошибки:")` followed by
`parts[0].strip()` / `parts[1].strip() if len(parts) > 1 else "Нет явных
ошибок"` — `parts[1]` is the text between the first and second marker. -/
def splitAnalysis (analysis : String) : String × String :=
  let cs := analysis.toList
  match splitOnce markerChars cs with
  | none => (String.mk (stripWs cs), "Нет явных ошибок")
  | some (pre, post) =>
    let second :=
      match splitOnce markerChars post with
      | none => post
      | some (p2, _) => p2
    (String.mk (stripWs pre), String.mk (stripWs second))

/-- `LLMAnalyzer._analyze_batch`: a transport exception, a non-200 status, or
a response without `choices` yields `(None, None)`; otherwise the first
choice's content is split at the error marker. -/
def analyze_batch (resp : Except String ApiResponse) : Option (String × String) :=
  match resp with
  | Except.error _ => none
  | Except.ok r =>
    if r.status ≠ 200 then none
    else
      match r.choices with
      | [] => none
      | content :: _ => some (splitAnalysis content)

/-! ## Context-file dedup in `GitLabClient.get_commit_details`
(main.py lines 269–278)

The heuristic context files collected from `get_context_files` carry only a
path and content (no priority field); duplicates are removed keeping the first
occurrence, with a `processed_paths` set. -/

structure MainContextFile where
  path : String
  content : String
deriving DecidableEq

def dedupContextFiles : List MainContextFile → List String → List MainContextFile
  | [], _ => []
  | cf :: rest, seen =>
    if cf.path ∈ seen then dedupContextFiles rest seen
    else cf :: dedupContextFiles rest (cf.path :: seen)

/-- `unique_context_files` as built by the loop in `get_commit_details`. -/
def uniqueContextFiles (l : List MainContextFile) : List MainContextFile :=
  dedupContextFiles l []

/-! ## Helper lemmas -/

theorem keyMatches_iff (project commit_id : String) (r : LedgerRow) :
    keyMatches project commit_id r = true ↔
      r.project = project ∧ r.commit_id = commit_id := by
  simp [keyMatches]

theorem find?_filter_of_imp (l : List LedgerRow) (q pred : LedgerRow → Bool)
    (h : ∀ r, pred r = true → q r = true) :
    (l.filter q).find? pred = l.find? pred := by
  induction l with
  | nil => simp
  | cons a l ih =>
    by_cases hq : q a = true
    · by_cases hp : pred a = true
      · simp [hq, List.find?_cons_of_pos _ hp]
      · simp only [List.filter_cons, hq, if_true]
        rw [List.find?_cons_of_neg _ (by simp [hp]),
            List.find?_cons_of_neg _ (by simp [hp]), ih]
    · have hp : ¬ pred a = true := fun hpa => hq (h a hpa)
      have hfil : (a :: l).filter q = l.filter q := by
        simp [List.filter_cons, hq]
      rw [hfil, ih, List.find?_cons_of_neg _ (by simp [hp])]

theorem is_processed_mark_same (db : List LedgerRow) (p i : String)
    (t f : Int) : is_processed (mark_processed db p i t f) p i = some f := by
  have hk : keyMatches p i (LedgerRow.mk p i f t) = true := by
    simp [keyMatches]
  simp [is_processed, mark_processed, List.find?_cons_of_pos _ hk]

theorem is_processed_mark_other (db : List LedgerRow) (p i p' i' : String)
    (t f : Int) (h : ¬(p' = p ∧ i' = i)) :
    is_processed (mark_processed db p i t f) p' i' = is_processed db p' i' := by
  have hk : ¬ keyMatches p' i' (LedgerRow.mk p i f t) = true := by
    simp only [keyMatches_iff]
    intro hc
    exact h ⟨hc.1.symm, hc.2.symm⟩
  unfold is_processed mark_processed
  rw [List.find?_cons_of_neg _ (by simpa using hk)]
  rw [find?_filter_of_imp]
  intro r hr
  rw [keyMatches_iff] at hr
  simp only [Bool.not_eq_true']
  rw [Bool.eq_false_iff]
  intro hq
  rw [keyMatches_iff] at hq
  exact h ⟨(hr.1.symm.trans hq.1), (hr.2.symm.trans hq.2)⟩

theorem mem_fetch_iff (db : List LedgerRow) (p : String) (start : Int)
    (recent : List Commit) (c : Commit) :
    c ∈ fetch_recent_commits db p start recent ↔
      c ∈ recent ∧ start < c.created_at ∧ is_processed db p c.id = none := by
  simp [fetch_recent_commits, List.mem_filter, Option.isNone_iff_eq_none,
    and_assoc]

theorem processCommit_fst (world : String → String → StepOutcome)
    (gitlab_url project : String) (db : List LedgerRow) (c : Commit) :
    (processCommit world gitlab_url project db c).1
      = mark_processed db project c.id c.created_at 1 := by
  unfold processCommit
  cases world project c.id <;> rfl

theorem processCommit_events_commit_id (world : String → String → StepOutcome)
    (gitlab_url project : String) (db : List LedgerRow) (c : Commit)
    (e : Event) (he : e ∈ (processCommit world gitlab_url project db c).2) :
    e.commit_id = c.id := by
  unfold processCommit at he
  cases hw : world project c.id <;> rw [hw] at he
  · simp at he
  · simp at he
    rw [he]
  · simp at he
    rcases he with he | he <;> rw [he]
  · simp at he
    rw [he]

theorem runLoop_commit_ids (world : String → String → StepOutcome)
    (gitlab_url project : String) :
    ∀ (cs : List Commit) (db : List LedgerRow) (e : Event),
      e ∈ (runLoop world gitlab_url project db cs).2 →
        ∃ d ∈ cs, e.commit_id = d.id := by
  intro cs
  induction cs with
  | nil => intro db e he; simp [runLoop] at he
  | cons c cs ih =>
    intro db e he
    simp only [runLoop, List.mem_append] at he
    rcases he with he | he
    · exact ⟨c, List.mem_cons_self c cs,
        processCommit_events_commit_id world gitlab_url project db c e he⟩
    · obtain ⟨d, hd, hde⟩ := ih _ e he
      exact ⟨d, List.mem_cons_of_mem c hd, hde⟩

theorem runLoop_preserves_marked (world : String → String → StepOutcome)
    (gitlab_url project : String) :
    ∀ (cs : List Commit) (db : List LedgerRow) (x : String),
      is_processed db project x = some 1 →
        is_processed (runLoop world gitlab_url project db cs).1 project x = some 1 := by
  intro cs
  induction cs with
  | nil => intro db x h; simpa [runLoop] using h
  | cons c cs ih =>
    intro db x h
    simp only [runLoop]
    apply ih
    rw [processCommit_fst]
    by_cases hx : x = c.id
    · rw [hx]; exact is_processed_mark_same ..
    · rw [is_processed_mark_other _ _ _ _ _ _ _ (by intro hc; exact hx hc.2)]
      exact h

theorem runLoop_marks_mem (world : String → String → StepOutcome)
    (gitlab_url project : String) :
    ∀ (cs : List Commit) (db : List LedgerRow) (c : Commit),
      c ∈ cs →
        is_processed (runLoop world gitlab_url project db cs).1 project c.id = some 1 := by
  intro cs
  induction cs with
  | nil => intro db c h; simp at h
  | cons d cs ih =>
    intro db c h
    rcases List.mem_cons.1 h with h | h
    · simp only [runLoop]
      apply runLoop_preserves_marked
      rw [processCommit_fst, h]
      exact is_processed_mark_same ..
    · simp only [runLoop]
      exact ih _ c h

theorem runLoop_raised_event (world : String → String → StepOutcome)
    (gitlab_url project : String) (m : String) :
    ∀ (cs : List Commit) (db : List LedgerRow) (c : Commit),
      c ∈ cs → world project c.id = StepOutcome.raised m →
        Event.mk EventKind.notifyError project c.id
            (errorNotification project c.id m)
          ∈ (runLoop world gitlab_url project db cs).2 := by
  intro cs
  induction cs with
  | nil => intro db c h; simp at h
  | cons d cs ih =>
    intro db c h hw
    rcases List.mem_cons.1 h with h | h
    · subst h
      simp only [runLoop, List.mem_append]
      left
      unfold processCommit
      rw [hw]
      simp
    · simp only [runLoop, List.mem_append]
      right
      exact ih _ c h hw

theorem runLoop_analysisNone_kinds (world : String → String → StepOutcome)
    (gitlab_url project : String) (i : String)
    (hw : world project i = StepOutcome.analysisNone) :
    ∀ (cs : List Commit) (db : List LedgerRow) (e : Event),
      e ∈ (runLoop world gitlab_url project db cs).2 → e.commit_id = i →
        e.kind = EventKind.analyze := by
  intro cs
  induction cs with
  | nil => intro db e he; simp [runLoop] at he
  | cons c cs ih =>
    intro db e he hei
    simp only [runLoop, List.mem_append] at he
    rcases he with he | he
    · have hid : e.commit_id = c.id :=
        processCommit_events_commit_id world gitlab_url project db c e he
      have hci : c.id = i := hid.symm.trans hei
      unfold processCommit at he
      rw [hci, hw] at he
      simp at he
      rw [he]
    · exact ih _ e he hei

theorem joinBatches_nil : joinBatches [] = [] := rfl

theorem joinBatches_cons (b : List ChangedFile) (l : List (List ChangedFile)) :
    joinBatches (b :: l) = b ++ joinBatches l := rfl

theorem batchTotal_append_one (l : List ChangedFile) (f : ChangedFile) :
    batchTotal (l ++ [f]) = batchTotal l + fileSize f := by
  simp [batchTotal]

theorem packGo_join (budget : Nat) :
    ∀ (files cur : List ChangedFile) (s : Nat),
      joinBatches (packGo budget files cur s) = cur ++ files := by
  intro files
  induction files with
  | nil =>
    intro cur s
    by_cases h : cur = []
    · simp [packGo, h, joinBatches_nil]
    · simp [packGo, h, joinBatches_cons, joinBatches_nil]
  | cons f rest ih =>
    intro cur s
    by_cases h : budget < s + fileSize f ∧ cur ≠ []
    · simp only [packGo, if_pos h, joinBatches_cons, ih, List.singleton_append]
    · simp only [packGo, if_neg h, ih, List.append_assoc, List.singleton_append]

theorem packGo_batches (budget : Nat) :
    ∀ (files cur : List ChangedFile) (s : Nat),
      s = batchTotal cur →
      (cur = [] ∨ batchTotal cur ≤ budget ∨ cur.length = 1) →
      ∀ b ∈ packGo budget files cur s,
        b ≠ [] ∧ (batchTotal b ≤ budget ∨ b.length = 1) := by
  intro files
  induction files with
  | nil =>
    intro cur s hs hinv b hb
    by_cases h : cur = []
    · simp [packGo, h] at hb
    · simp only [packGo, if_neg h, List.mem_singleton] at hb
      subst hb
      exact ⟨h, hinv.resolve_left h⟩
  | cons f rest ih =>
    intro cur s hs hinv b hb
    by_cases h : budget < s + fileSize f ∧ cur ≠ []
    · simp only [packGo, if_pos h, List.mem_cons] at hb
      rcases hb with hb | hb
      · subst hb
        exact ⟨h.2, hinv.resolve_left h.2⟩
      · exact ih [f] (fileSize f) (by simp [batchTotal]) (Or.inr (Or.inr rfl)) b hb
    · simp only [packGo, if_neg h] at hb
      refine ih (cur ++ [f]) (s + fileSize f)
        (by rw [hs, batchTotal_append_one]) ?_ b hb
      rcases Decidable.not_and_iff_or_not.1 h with h | h
      · by_cases hc : cur = []
        · subst hc
          exact Or.inr (Or.inr (by simp))
        · have hle : s + fileSize f ≤ budget := Nat.le_of_not_lt h
          exact Or.inr (Or.inl (by rw [batchTotal_append_one, ← hs]; exact hle))
      · have hc : cur = [] := Decidable.not_not.1 h
        subst hc
        exact Or.inr (Or.inr (by simp))

theorem dedup_paths_not_seen (l : List MainContextFile) :
    ∀ (seen : List String) (cf : MainContextFile),
      cf ∈ dedupContextFiles l seen → cf.path ∉ seen := by
  induction l with
  | nil => intro seen cf h; simp [dedupContextFiles] at h
  | cons d rest ih =>
    intro seen cf h
    by_cases hd : d.path ∈ seen
    · rw [dedupContextFiles, if_pos hd] at h
      exact ih seen cf h
    · rw [dedupContextFiles, if_neg hd] at h
      rcases List.mem_cons.1 h with h | h
      · subst h; exact hd
      · have := ih (d.path :: seen) cf h
        intro hc
        exact this (List.mem_cons_of_mem _ hc)

theorem dedup_paths_nodup (l : List MainContextFile) :
    ∀ (seen : List String),
      ((dedupContextFiles l seen).map (fun f => f.path)).Nodup := by
  induction l with
  | nil => intro seen; simp [dedupContextFiles]
  | cons d rest ih =>
    intro seen
    by_cases hd : d.path ∈ seen
    · rw [dedupContextFiles, if_pos hd]; exact ih seen
    · rw [dedupContextFiles, if_neg hd]
      simp only [List.map_cons, List.nodup_cons]
      constructor
      · intro hc
        obtain ⟨cf, hcf, hpath⟩ := List.mem_map.1 hc
        have := dedup_paths_not_seen rest (d.path :: seen) cf hcf
        exact this (by rw [hpath]; exact List.mem_cons_self _ _)
      · exact ih (d.path :: seen)

theorem dedup_first_wins (l : List MainContextFile) :
    ∀ (seen : List String) (cf : MainContextFile),
      cf ∈ dedupContextFiles l seen →
        l.find? (fun d => d.path == cf.path) = some cf := by
  induction l with
  | nil => intro seen cf h; simp [dedupContextFiles] at h
  | cons d rest ih =>
    intro seen cf h
    by_cases hd : d.path ∈ seen
    · rw [dedupContextFiles, if_pos hd] at h
      have hne : d.path ≠ cf.path := by
        intro hc
        exact dedup_paths_not_seen rest seen cf h (hc ▸ hd)
      rw [List.find?_cons_of_neg _ (by simp [hne])]
      exact ih seen cf h
    · rw [dedupContextFiles, if_neg hd] at h
      rcases List.mem_cons.1 h with h | h
      · subst h
        exact List.find?_cons_of_pos _ (by simp)
      · have hns := dedup_paths_not_seen rest (d.path :: seen) cf h
        have hne : d.path ≠ cf.path := by
          intro hc
          exact hns (by rw [← hc]; exact List.mem_cons_self _ _)
        rw [List.find?_cons_of_neg _ (by simp [hne])]
        exact ih (d.path :: seen) cf h

theorem dedup_path_mem (l : List MainContextFile) :
    ∀ (seen : List String) (p : String),
      (∃ cf ∈ dedupContextFiles l seen, cf.path = p) ↔
        (p ∉ seen ∧ ∃ cf ∈ l, cf.path = p) := by
  induction l with
  | nil => intro seen p; simp [dedupContextFiles]
  | cons d rest ih =>
    intro seen p
    by_cases hd : d.path ∈ seen
    · rw [dedupContextFiles, if_pos hd]
      rw [ih seen p]
      constructor
      · rintro ⟨hns, cf, hcf, hp⟩
        exact ⟨hns, cf, List.mem_cons_of_mem _ hcf, hp⟩
      · rintro ⟨hns, cf, hcf, hp⟩
        rcases List.mem_cons.1 hcf with h | h
        · exfalso; subst h; rw [hp] at hd; exact hns hd
        · exact ⟨hns, cf, h, hp⟩
    · rw [dedupContextFiles, if_neg hd]
      constructor
      · rintro ⟨cf, hcf, hp⟩
        rcases List.mem_cons.1 hcf with h | h
        · have hdp : d.path = p := by rw [← h]; exact hp
          exact ⟨by rw [← hdp]; exact hd, d, List.mem_cons_self _ _, hdp⟩
        · have := (ih (d.path :: seen) p).1 ⟨cf, h, hp⟩
          refine ⟨fun hc => this.1 (List.mem_cons_of_mem _ hc), ?_⟩
          obtain ⟨_, cf', hcf', hp'⟩ := this
          exact ⟨cf', List.mem_cons_of_mem _ hcf', hp'⟩
      · rintro ⟨hns, cf, hcf, hp⟩
        by_cases hdp : d.path = p
        · exact ⟨d, List.mem_cons_self _ _, hdp⟩
        · rcases List.mem_cons.1 hcf with h | h
          · exfalso
            apply hdp
            rw [← hp, h]
          · have hpd : p ∉ d.path :: seen := by
              intro hc
              rcases List.mem_cons.1 hc with hc | hc
              · exact hdp hc.symm
              · exact hns hc
            obtain ⟨cf', hcf', hp'⟩ := (ih (d.path :: seen) p).2 ⟨hpd, cf, h, hp⟩
            exact ⟨cf', List.mem_cons_of_mem _ hcf', hp'⟩

theorem lookupField_setField_same (fields : List (String × Json)) (k : String)
    (v : Json) : lookupField (setField fields k v) k = some v := by
  induction fields with
  | nil => simp [setField, lookupField]
  | cons kv rest ih =>
    obtain ⟨k', v'⟩ := kv
    by_cases h : k' = k
    · simp [setField, lookupField, h]
    · simp only [setField, lookupField, beq_iff_eq, if_neg h]
      exact ih

theorem lookupField_setField_other (fields : List (String × Json))
    (k k' : String) (v : Json) (h : k' ≠ k) :
    lookupField (setField fields k v) k' = lookupField fields k' := by
  induction fields with
  | nil =>
    simp only [setField, lookupField, beq_iff_eq]
    rw [if_neg (fun hc => h hc.symm)]
  | cons kv rest ih =>
    obtain ⟨k'', v''⟩ := kv
    by_cases hk : k'' = k
    · simp only [setField, beq_iff_eq, if_pos hk, lookupField]
      rw [if_neg (fun hc => h hc.symm), if_neg (fun hc => h (hk ▸ hc).symm)]
    · simp only [setField, beq_iff_eq, if_neg hk, lookupField]
      by_cases hk' : k'' = k'
      · rw [if_pos hk', if_pos hk']
      · rw [if_neg hk', if_neg hk']
        exact ih

/-- The field list produced by the key-filling of
`CodeAnalyzer._extract_json_response` on a successfully parsed dict. -/
def analyzerFill (fields : List (String × Json)) : List (String × Json) :=
  let f1 := if (lookupField fields "issues").isSome then fields
            else setField fields "issues" (Json.arr [])
  if (lookupField f1 "summary").isSome then f1
  else setField f1 "summary" (Json.str "Анализ выполнен, детали не предоставлены")

/-- The field list produced by the key-filling of
`ContextDiscovery._extract_json_response` on a successfully parsed dict. -/
def discoveryFill (fields : List (String × Json)) : List (String × Json) :=
  let f1 := if (lookupField fields "required_files").isSome then fields
            else setField fields "required_files" (Json.arr [])
  if (lookupField f1 "explanation").isSome then f1
  else setField f1 "explanation" (Json.str "Объяснение не предоставлено")

theorem normalizeAnalyzer_obj (fields : List (String × Json)) :
    normalizeAnalyzer (Json.obj fields) = some (Json.obj (analyzerFill fields)) := by
  unfold normalizeAnalyzer analyzerFill pyContains pySetItem
  by_cases h1 : (lookupField fields "issues").isSome
  · simp only [h1, if_true]
    by_cases h2 : (lookupField fields "summary").isSome
    · simp [h2]
    · simp [h2]
  · simp only [h1, if_false, Bool.false_eq_true]
    by_cases h2 : (lookupField (setField fields "issues" (Json.arr [])) "summary").isSome
    · simp [h2]
    · simp [h2]

theorem normalizeDiscovery_obj (fields : List (String × Json)) :
    normalizeDiscovery (Json.obj fields) = some (Json.obj (discoveryFill fields)) := by
  unfold normalizeDiscovery discoveryFill pyContains pySetItem
  by_cases h1 : (lookupField fields "required_files").isSome
  · simp only [h1, if_true]
    by_cases h2 : (lookupField fields "explanation").isSome
    · simp [h2]
    · simp [h2]
  · simp only [h1, if_false, Bool.false_eq_true]
    by_cases h2 :
        (lookupField (setField fields "required_files" (Json.arr [])) "explanation").isSome
    · simp [h2]
    · simp [h2]

theorem analyzerFill_has_issues (fields : List (String × Json)) :
    (lookupField (analyzerFill fields) "issues").isSome := by
  unfold analyzerFill
  by_cases h1 : (lookupField fields "issues").isSome
  · simp only [h1, if_true]
    by_cases h2 : (lookupField fields "summary").isSome
    · simp [h2, h1]
    · simp only [h2, if_false, Bool.false_eq_true]
      rw [lookupField_setField_other _ _ _ _ (by decide)]
      exact h1
  · simp only [h1, if_false, Bool.false_eq_true]
    by_cases h2 : (lookupField (setField fields "issues" (Json.arr [])) "summary").isSome
    · simp only [h2, if_true]
      simp [lookupField_setField_same]
    · simp only [h2, if_false, Bool.false_eq_true]
      rw [lookupField_setField_other _ _ _ _ (by decide),
        lookupField_setField_same]
      rfl

theorem analyzerFill_has_summary (fields : List (String × Json)) :
    (lookupField (analyzerFill fields) "summary").isSome := by
  unfold analyzerFill
  by_cases h1 : (lookupField fields "issues").isSome
  · simp only [h1, if_true]
    by_cases h2 : (lookupField fields "summary").isSome
    · simp [h2, h1]
    · simp only [h2, if_false, Bool.false_eq_true]
      simp [lookupField_setField_same]
  · simp only [h1, if_false, Bool.false_eq_true]
    by_cases h2 : (lookupField (setField fields "issues" (Json.arr [])) "summary").isSome
    · simp only [h2, if_true]
    · simp only [h2, if_false, Bool.false_eq_true]
      simp [lookupField_setField_same]

theorem analyzerFill_default_issues (fields : List (String × Json))
    (h : lookupField fields "issues" = none) :
    lookupField (analyzerFill fields) "issues" = some (Json.arr []) := by
  unfold analyzerFill
  simp only [h, Option.isSome_none, if_false, Bool.false_eq_true]
  by_cases h2 : (lookupField (setField fields "issues" (Json.arr [])) "summary").isSome
  · simp only [h2, if_true]
    exact lookupField_setField_same ..
  · simp only [h2, if_false, Bool.false_eq_true]
    rw [lookupField_setField_other _ _ _ _ (by decide)]
    exact lookupField_setField_same ..

theorem analyzerFill_default_summary (fields : List (String × Json))
    (h : lookupField fields "summary" = none) :
    lookupField (analyzerFill fields) "summary"
      = some (Json.str "Анализ выполнен, детали не предоставлены") := by
  unfold analyzerFill
  by_cases h1 : (lookupField fields "issues").isSome
  · simp only [h1, if_true, h, Option.isSome_none, if_false, Bool.false_eq_true]
    exact lookupField_setField_same ..
  · simp only [h1, if_false, Bool.false_eq_true]
    have h2 : lookupField (setField fields "issues" (Json.arr [])) "summary" = none := by
      rw [lookupField_setField_other _ _ _ _ (by decide)]
      exact h
    simp only [h2, Option.isSome_none, if_false, Bool.false_eq_true]
    exact lookupField_setField_same ..

theorem discoveryFill_has_required (fields : List (String × Json)) :
    (lookupField (discoveryFill fields) "required_files").isSome := by
  unfold discoveryFill
  by_cases h1 : (lookupField fields "required_files").isSome
  · simp only [h1, if_true]
    by_cases h2 : (lookupField fields "explanation").isSome
    · simp [h2, h1]
    · simp only [h2, if_false, Bool.false_eq_true]
      rw [lookupField_setField_other _ _ _ _ (by decide)]
      exact h1
  · simp only [h1, if_false, Bool.false_eq_true]
    by_cases h2 :
        (lookupField (setField fields "required_files" (Json.arr [])) "explanation").isSome
    · simp only [h2, if_true]
      simp [lookupField_setField_same]
    · simp only [h2, if_false, Bool.false_eq_true]
      rw [lookupField_setField_other _ _ _ _ (by decide),
        lookupField_setField_same]
      rfl

theorem discoveryFill_has_explanation (fields : List (String × Json)) :
    (lookupField (discoveryFill fields) "explanation").isSome := by
  unfold discoveryFill
  by_cases h1 : (lookupField fields "required_files").isSome
  · simp only [h1, if_true]
    by_cases h2 : (lookupField fields "explanation").isSome
    · simp [h2, h1]
    · simp only [h2, if_false, Bool.false_eq_true]
      simp [lookupField_setField_same]
  · simp only [h1, if_false, Bool.false_eq_true]
    by_cases h2 :
        (lookupField (setField fields "required_files" (Json.arr [])) "explanation").isSome
    · simp only [h2, if_true]
    · simp only [h2, if_false, Bool.false_eq_true]
      simp [lookupField_setField_same]

/-! ## Claim theorems -/

/-- Sample changed file whose diff has `n` characters, used by witnesses. -/
def sampleFile (n : Nat) : ChangedFile :=
  ChangedFile.mk "f" (String.mk (List.replicate n 'a')) none none

/-- Witness world in which every analysis returns `(None, None)`. -/
def wWorldNone : String → String → StepOutcome := fun _ _ => StepOutcome.analysisNone

/-- Witness world in which every commit's processing raises. -/
def wWorldRaised : String → String → StepOutcome := fun _ _ => StepOutcome.raised "boom"

def wCommitNew : Commit := Commit.mk "abcdef1" 5 "t" "a"

def wCommitSecond : Commit := Commit.mk "bcdefa2" 6 "t3" "c"

def wCommitOld : Commit := Commit.mk "old1234" 4 "t2" "b"

def wLedger : List LedgerRow := [LedgerRow.mk "p" "old1234" 1 3]

/-- C1: a commit whose `(project, commit_id)` key is already recorded in the
ledger is excluded by `fetch_recent_commits`, so a polling pass of
`monitor_project` produces no event at all for it — in particular it neither
invokes the analysis engine nor sends any notification for that commit. -/
theorem claim_C1_idempotent_skip (world : String → String → StepOutcome)
    (gitlab_url project : String) (db : List LedgerRow) (start_time : Int)
    (recent : List Commit) (c : Commit)
    (h : is_processed db project c.id ≠ none) :
    ∀ e ∈ (monitor_project world gitlab_url project db start_time recent).2,
      e.commit_id ≠ c.id := by
  intro e he heq
  obtain ⟨d, hd, hde⟩ :=
    runLoop_commit_ids world gitlab_url project _ db e he
  rw [List.mem_reverse] at hd
  have hn := ((mem_fetch_iff db project start_time recent d).1 hd).2.2
  have hdc : d.id = c.id := hde.symm.trans heq
  rw [hdc] at hn
  exact h hn

theorem claim_C1_idempotent_skip_witness :
    is_processed wLedger "p" "old1234" ≠ none ∧
    (Event.mk EventKind.analyze "p" "abcdef1" "").commit_id ≠ "old1234" :=
  ⟨by decide,
   claim_C1_idempotent_skip wWorldNone "u" "p" wLedger 0 [wCommitNew, wCommitOld]
     wCommitOld (by decide) (Event.mk EventKind.analyze "p" "abcdef1" "")
     (by decide)⟩

/-- C2: for every file list and positive budget, the greedy batching loop of
`analyze_changes` partitions the input exactly — concatenating the batches in
order gives back the input — every batch is non-empty, and every batch fits
the budget except a single-file batch whose own size exceeds it. -/
theorem claim_C2_batch_packing (budget : Nat) (files : List ChangedFile)
    (_hb : 0 < budget) :
    joinBatches (makeBatches budget files) = files ∧
    ∀ b ∈ makeBatches budget files,
      b ≠ [] ∧ (batchTotal b ≤ budget ∨ (b.length = 1 ∧ budget < batchTotal b)) := by
  constructor
  · rw [makeBatches, packGo_join budget files [] 0]
    rfl
  · intro b hb'
    obtain ⟨hne, hdisj⟩ :=
      packGo_batches budget files [] 0 (by simp [batchTotal]) (Or.inl rfl) b hb'
    refine ⟨hne, ?_⟩
    by_cases hle : batchTotal b ≤ budget
    · exact Or.inl hle
    · rcases hdisj with h | h
      · exact absurd h hle
      · exact Or.inr ⟨h, Nat.lt_of_not_le hle⟩

theorem claim_C2_batch_packing_witness :
    (0 : Nat) < 10 ∧
    joinBatches (makeBatches 10 [sampleFile 6, sampleFile 12, sampleFile 3])
      = [sampleFile 6, sampleFile 12, sampleFile 3] ∧
    ([sampleFile 12] ≠ [] ∧ (batchTotal [sampleFile 12] ≤ 10 ∨
      ([sampleFile 12].length = 1 ∧ 10 < batchTotal [sampleFile 12]))) :=
  ⟨by decide,
   (claim_C2_batch_packing 10 [sampleFile 6, sampleFile 12, sampleFile 3]
     (by decide)).1,
   (claim_C2_batch_packing 10 [sampleFile 6, sampleFile 12, sampleFile 3]
     (by decide)).2 [sampleFile 12] (by decide)⟩

/-- The spec's fenced-block parser test input. -/
def fencedOkResponse : String :=
  "```json\n\x7b\"issues\": [], \"summary\": \"ok\"\x7d\n```"

/-- The spec's single-quoted repair-path test input. -/
def singleQuoteResponse : String :=
  "\x7b\x27issues\x27: [], \x27summary\x27: \x27ok\x27\x7d"

/-- C3 counterexample: the claim's third robustness case fails for the cited
`SmartContextAnalyzer._extract_json_response` — on noise text from which no
JSON can be recovered even after repair, it returns the `error`-keyed
dictionary, which is not the default-filled object: it has neither an empty
`issues` list nor a `summary` string. -/
theorem claim_C3_counterexample :
    extract_json_response_smart "no json here at all"
      = Json.obj [("error", Json.str "Ошибка при анализе ответа LLM")]
    ∧ lookupField [("error", Json.str "Ошибка при анализе ответа LLM")]
        "issues" = none
    ∧ lookupField [("error", Json.str "Ошибка при анализе ответа LLM")]
        "summary" = none :=
  ⟨by rfl, by rfl, by rfl⟩

/-- C3 (amended): `CodeAnalyzer._extract_json_response` satisfies all three
robustness cases — the fenced ```json block parses to exactly the contained
object, the single-quoted input is repaired to an equivalent object with the
same two keys and values, and any text whose primary candidate and repaired
text both fail to parse yields the default-filled object (empty issues plus a
diagnostic summary), with no exception reaching the caller.
`SmartContextAnalyzer._extract_json_response` satisfies the first two cases
with the same results, but on unrecoverable noise it returns the `error`-keyed
diagnostic dictionary instead of a default-filled object — still without
propagating a parse exception. -/
theorem claim_C3_amended_parser_robustness :
    extract_json_response_analyzer fencedOkResponse
      = Json.obj [("issues", Json.arr []), ("summary", Json.str "ok")]
    ∧ extract_json_response_analyzer singleQuoteResponse
      = Json.obj [("issues", Json.arr []), ("summary", Json.str "ok")]
    ∧ (∀ t : String, jsonLoadsL (primaryCandidate t.toList) = none →
        jsonLoadsL (cleanedText t.toList) = none →
        extract_json_response_analyzer t = analyzerParseErrorResult)
    ∧ extract_json_response_smart fencedOkResponse
      = Json.obj [("issues", Json.arr []), ("summary", Json.str "ok")]
    ∧ extract_json_response_smart singleQuoteResponse
      = Json.obj [("issues", Json.arr []), ("summary", Json.str "ok")]
    ∧ (∀ t : String, jsonLoadsL (primaryCandidate t.toList) = none →
        jsonLoadsL (cleanedText t.toList) = none →
        extract_json_response_smart t
          = Json.obj [("error", Json.str "Ошибка при анализе ответа LLM")]) := by
  refine ⟨by rfl, by rfl, ?_, by rfl, by rfl, ?_⟩
  · intro t h1 h2
    simp only [extract_json_response_analyzer, h1, h2]
  · intro t h1 h2
    simp only [extract_json_response_smart, h1, h2]

theorem claim_C3_amended_parser_robustness_witness :
    jsonLoadsL (primaryCandidate ("plain noise text").toList) = none
    ∧ extract_json_response_analyzer "plain noise text" = analyzerParseErrorResult
    ∧ extract_json_response_smart "plain noise text"
      = Json.obj [("error", Json.str "Ошибка при анализе ответа LLM")] :=
  ⟨by rfl,
   claim_C3_amended_parser_robustness.2.2.1 "plain noise text" (by rfl) (by rfl),
   claim_C3_amended_parser_robustness.2.2.2.2.2 "plain noise text"
     (by rfl) (by rfl)⟩

/-- C4 counterexample: on the repair path the parsed object is returned as-is
with no key filling — the single-quoted response missing `issues` parses after
repair and is returned still missing `issues`, contradicting the claim that
every successfully obtained object has all expected keys filled in. -/
theorem claim_C4_counterexample :
    extract_json_response_analyzer "\x7b\x27summary\x27: \x27ok\x27\x7d"
      = Json.obj [("summary", Json.str "ok")]
    ∧ lookupField [("summary", Json.str "ok")] "issues" = none :=
  ⟨by rfl, by rfl⟩

/-- C4 (amended): only on the primary extraction path are the expected keys
(`issues`/`summary` for the analyzer, `required_files`/`explanation` for
discovery) filled in with their documented defaults when missing; the repair
path returns the repaired parse result unchanged, which may lack expected
keys. -/
theorem claim_C4_amended_key_filling :
    (∀ (t : String) (fields : List (String × Json)),
      jsonLoadsL (primaryCandidate t.toList) = some (Json.obj fields) →
        extract_json_response_analyzer t = Json.obj (analyzerFill fields)
        ∧ (lookupField (analyzerFill fields) "issues").isSome
        ∧ (lookupField (analyzerFill fields) "summary").isSome
        ∧ (lookupField fields "issues" = none →
            lookupField (analyzerFill fields) "issues" = some (Json.arr []))
        ∧ (lookupField fields "summary" = none →
            lookupField (analyzerFill fields) "summary"
              = some (Json.str "Анализ выполнен, детали не предоставлены")))
    ∧ (∀ (t : String) (fields : List (String × Json)),
      jsonLoadsL (primaryCandidate t.toList) = some (Json.obj fields) →
        extract_json_response_discovery t = Json.obj (discoveryFill fields)
        ∧ (lookupField (discoveryFill fields) "required_files").isSome
        ∧ (lookupField (discoveryFill fields) "explanation").isSome)
    ∧ (∀ (t : String) (j : Json),
      jsonLoadsL (primaryCandidate t.toList) = none →
        jsonLoadsL (cleanedText t.toList) = some j →
        extract_json_response_analyzer t = j ∧
        extract_json_response_discovery t = j) := by
  refine ⟨?_, ?_, ?_⟩
  · intro t fields h
    refine ⟨?_, analyzerFill_has_issues fields, analyzerFill_has_summary fields,
      analyzerFill_default_issues fields, analyzerFill_default_summary fields⟩
    simp only [extract_json_response_analyzer, h, normalizeAnalyzer_obj]
  · intro t fields h
    refine ⟨?_, discoveryFill_has_required fields,
      discoveryFill_has_explanation fields⟩
    simp only [extract_json_response_discovery, h, normalizeDiscovery_obj]
  · intro t j h1 h2
    constructor
    · simp only [extract_json_response_analyzer, h1, h2]
    · simp only [extract_json_response_discovery, h1, h2]

theorem claim_C4_amended_key_filling_witness :
    jsonLoadsL (primaryCandidate ("\x7b\"issues\": []\x7d").toList)
      = some (Json.obj [("issues", Json.arr [])])
    ∧ extract_json_response_analyzer "\x7b\"issues\": []\x7d"
      = Json.obj (analyzerFill [("issues", Json.arr [])]) :=
  ⟨by rfl,
   (claim_C4_amended_key_filling.1 "\x7b\"issues\": []\x7d"
     [("issues", Json.arr [])] (by rfl)).1⟩

/-- C5: every failure of the context-discovery call — a transport error or a
response unrecoverable even after repair — makes `discover_required_files`
return an empty `required_files` list with an error-message explanation, and
`analyze_commit` then proceeds with status `completed`, analysing the modified
files with an empty context-file list instead of aborting. -/
theorem claim_C5_discovery_fail_open :
    (∀ e : String,
      discover_required_files (Except.error e)
        = Json.obj [("required_files", Json.arr []),
            ("explanation", Json.str ("Ошибка при определении контекста: " ++ e))])
    ∧ (∀ t : String, jsonLoadsL (primaryCandidate t.toList) = none →
        jsonLoadsL (cleanedText t.toList) = none →
        discover_required_files (Except.ok t) = discoveryParseErrorResult)
    ∧ (∀ (α : Type) (analyze : List α → List ContextFileCA → Json)
        (repoClient : Option (String → Option String)) (mfiles : List α)
        (e : String),
        analyze_commit (Except.error e) analyze repoClient mfiles
          = CommitAnalysis.mk "completed" (some (analyze mfiles [])) none none)
    ∧ (∀ (α : Type) (analyze : List α → List ContextFileCA → Json)
        (repoClient : Option (String → Option String)) (mfiles : List α)
        (t : String),
        jsonLoadsL (primaryCandidate t.toList) = none →
        jsonLoadsL (cleanedText t.toList) = none →
        analyze_commit (Except.ok t) analyze repoClient mfiles
          = CommitAnalysis.mk "completed" (some (analyze mfiles [])) none none) := by
  refine ⟨fun e => rfl, ?_, ?_, ?_⟩
  · intro t h1 h2
    simp only [discover_required_files, extract_json_response_discovery, h1, h2]
  · intro α analyze repoClient mfiles e
    rfl
  · intro α analyze repoClient mfiles t h1 h2
    unfold analyze_commit
    rw [show discover_required_files (Except.ok t) = discoveryParseErrorResult from by
      simp only [discover_required_files, extract_json_response_discovery, h1, h2]]
    rfl

theorem claim_C5_discovery_fail_open_witness :
    discover_required_files (Except.error "boom")
      = Json.obj [("required_files", Json.arr []),
          ("explanation", Json.str ("Ошибка при определении контекста: " ++ "boom"))]
    ∧ analyze_commit (Except.ok "total garbage") (fun (_ : List Unit) _ => Json.null)
        none [] = CommitAnalysis.mk "completed" (some Json.null) none none :=
  ⟨claim_C5_discovery_fail_open.1 "boom",
   claim_C5_discovery_fail_open.2.2.2 Unit (fun _ _ => Json.null) none []
     "total garbage" (by rfl) (by rfl)⟩

/-- A discovery response requesting the same path twice with different
priorities, used to exhibit the missing dedup in `analyze_commit`. -/
def dupDiscoveryText : String :=
  "\x7b\"required_files\": [\x7b\"path\": \"a\", \"priority\": 3\x7d, \x7b\"path\": \"a\", \"priority\": 1\x7d], \"explanation\": \"x\"\x7d"

/-- C6 counterexample: `CodeAnalyzer.analyze_commit` performs no
deduplication — when discovery requests the same path twice, the context-file
list handed to analysis contains that path twice, contradicting the claim that
each path appears exactly once. -/
theorem claim_C6_counterexample :
    (analyze_commit (Except.ok dupDiscoveryText)
        (fun (_ : List Unit) ctx => Json.arr (ctx.map (fun f => Json.str f.path)))
        (some (fun _ => some "body")) []).context_files
      = some ["a", "a"]
    ∧ (analyze_commit (Except.ok dupDiscoveryText)
        (fun (_ : List Unit) ctx => Json.arr (ctx.map (fun f => Json.str f.path)))
        (some (fun _ => some "body")) []).analysis
      = some (Json.arr [Json.str "a", Json.str "a"]) :=
  ⟨by rfl, by rfl⟩

/-- C6 (amended): only `get_commit_details` in main.py deduplicates context
files by path, keeping for each duplicated path the first-fetched instance
(these heuristic entries carry no priority at all); the fetch loop of
`analyze_commit` does not deduplicate, so a path requested twice appears once
per resolved request. -/
theorem claim_C6_amended_dedup (l : List MainContextFile) :
    ((uniqueContextFiles l).map (fun f => f.path)).Nodup
    ∧ (∀ cf ∈ uniqueContextFiles l,
        l.find? (fun d => d.path == cf.path) = some cf)
    ∧ (∀ p : String,
        (∃ cf ∈ uniqueContextFiles l, cf.path = p) ↔ ∃ cf ∈ l, cf.path = p) := by
  refine ⟨dedup_paths_nodup l [], ?_, ?_⟩
  · intro cf hcf
    exact dedup_first_wins l [] cf hcf
  · intro p
    rw [uniqueContextFiles, dedup_path_mem l [] p]
    simp

theorem claim_C6_amended_dedup_witness :
    List.find? (fun d => d.path == "a")
        [MainContextFile.mk "a" "x", MainContextFile.mk "a" "y"]
      = some (MainContextFile.mk "a" "x") :=
  (claim_C6_amended_dedup [MainContextFile.mk "a" "x", MainContextFile.mk "a" "y"]).2.1
    (MainContextFile.mk "a" "x") (by decide)

/-- C7 counterexample: when analysis fails without raising (here: every
analysis returns `(None, None)`, as after a non-200 completion status), the
orchestrator sends no notification at all for the commit — the event trace of
the polling pass holds only the analysis invocation, and the commit is marked
processed — contradicting the claim that a distinguishable error message is
surfaced through the notification channel. -/
theorem claim_C7_counterexample :
    analyze_batch (Except.ok (ApiResponse.mk 500 ["resp"])) = none
    ∧ (monitor_project wWorldNone "u" "p" [] 0 [wCommitNew]).2
      = [Event.mk EventKind.analyze "p" "abcdef1" ""]
    ∧ is_processed (monitor_project wWorldNone "u" "p" [] 0 [wCommitNew]).1
        "p" "abcdef1" = some 1 :=
  ⟨by rfl, by decide, by decide⟩

/-- C7 (amended): when the analyzer returns no description — a transport
error, a non-200 completion status, or a response without choices all make
`_analyze_batch` return `(None, None)` — the orchestrator only logs, marks the
commit processed and continues; every event it emits for such a commit is the
analysis invocation itself, never a notification. -/
theorem claim_C7_amended_silent_analysis_failure
    (world : String → String → StepOutcome) (gitlab_url project : String)
    (db : List LedgerRow) (start_time : Int) (recent : List Commit)
    (c : Commit) :
    (world project c.id = StepOutcome.analysisNone →
      (∀ e ∈ (monitor_project world gitlab_url project db start_time recent).2,
          e.commit_id = c.id → e.kind = EventKind.analyze)
      ∧ (c ∈ fetch_recent_commits db project start_time recent →
          is_processed
            (monitor_project world gitlab_url project db start_time recent).1
            project c.id = some 1))
    ∧ (∀ r : ApiResponse, r.status ≠ 200 → analyze_batch (Except.ok r) = none)
    ∧ (∀ s : Nat, analyze_batch (Except.ok (ApiResponse.mk s [])) = none)
    ∧ (∀ msg : String, analyze_batch (Except.error msg) = none) := by
  refine ⟨?_, ?_, ?_, fun msg => rfl⟩
  · intro hw
    constructor
    · intro e he hei
      exact runLoop_analysisNone_kinds world gitlab_url project c.id hw _ db e he hei
    · intro hmem
      exact runLoop_marks_mem world gitlab_url project _ db c (List.mem_reverse.2 hmem)
  · intro r hr
    simp only [analyze_batch]
    rw [if_pos hr]
  · intro s
    simp only [analyze_batch]
    by_cases hs : s = 200
    · rw [if_neg (by simp [hs])]
    · rw [if_pos (by simp [hs])]

theorem claim_C7_amended_silent_analysis_failure_witness :
    (Event.mk EventKind.analyze "p" "abcdef1" "").kind = EventKind.analyze
    ∧ is_processed (monitor_project wWorldNone "u" "p" [] 0 [wCommitNew]).1
        "p" "abcdef1" = some 1
    ∧ analyze_batch (Except.ok (ApiResponse.mk 404 ["resp"])) = none :=
  ⟨((claim_C7_amended_silent_analysis_failure wWorldNone "u" "p" [] 0 [wCommitNew]
      wCommitNew).1 (by rfl)).1 (Event.mk EventKind.analyze "p" "abcdef1" "")
      (by decide) (by rfl),
   ((claim_C7_amended_silent_analysis_failure wWorldNone "u" "p" [] 0 [wCommitNew]
      wCommitNew).1 (by rfl)).2 (by decide),
   (claim_C7_amended_silent_analysis_failure wWorldNone "u" "p" [] 0 [wCommitNew]
      wCommitNew).2.1 (ApiResponse.mk 404 ["resp"]) (by decide)⟩

/-- C8: a commit whose processing raises is caught at the `monitor_project`
boundary — the loop still sends an error notification tagged with the commit
id, still marks the commit processed (flag 1) in the ledger, and every other
commit of the same window is still processed to a marked state. -/
theorem claim_C8_exception_contained (world : String → String → StepOutcome)
    (gitlab_url project : String) (db : List LedgerRow) (start_time : Int)
    (recent : List Commit) (c : Commit) (m : String)
    (hmem : c ∈ fetch_recent_commits db project start_time recent)
    (hout : world project c.id = StepOutcome.raised m) :
    Event.mk EventKind.notifyError project c.id (errorNotification project c.id m)
        ∈ (monitor_project world gitlab_url project db start_time recent).2
    ∧ is_processed
        (monitor_project world gitlab_url project db start_time recent).1
        project c.id = some 1
    ∧ ∀ d ∈ fetch_recent_commits db project start_time recent,
        is_processed
          (monitor_project world gitlab_url project db start_time recent).1
          project d.id = some 1 := by
  have hmem' : c ∈ (fetch_recent_commits db project start_time recent).reverse :=
    List.mem_reverse.2 hmem
  refine ⟨runLoop_raised_event world gitlab_url project m _ db c hmem' hout,
    runLoop_marks_mem world gitlab_url project _ db c hmem', ?_⟩
  intro d hd
  exact runLoop_marks_mem world gitlab_url project _ db d (List.mem_reverse.2 hd)

theorem claim_C8_exception_contained_witness :
    (Event.mk EventKind.notifyError "p" "abcdef1"
        (errorNotification "p" "abcdef1" "boom")
      ∈ (monitor_project wWorldRaised "u" "p" [] 0 [wCommitNew, wCommitSecond]).2)
    ∧ is_processed
        (monitor_project wWorldRaised "u" "p" [] 0 [wCommitNew, wCommitSecond]).1
        "p" "abcdef1" = some 1
    ∧ is_processed
        (monitor_project wWorldRaised "u" "p" [] 0 [wCommitNew, wCommitSecond]).1
        "p" "bcdefa2" = some 1 :=
  ⟨(claim_C8_exception_contained wWorldRaised "u" "p" [] 0
      [wCommitNew, wCommitSecond] wCommitNew "boom" (by decide) (by rfl)).1,
   (claim_C8_exception_contained wWorldRaised "u" "p" [] 0
      [wCommitNew, wCommitSecond] wCommitNew "boom" (by decide) (by rfl)).2.1,
   (claim_C8_exception_contained wWorldRaised "u" "p" [] 0
      [wCommitNew, wCommitSecond] wCommitNew "boom" (by decide) (by rfl)).2.2
     wCommitSecond (by decide)⟩

/-- C9: with at most 3 modified files, `analyze_changes` issues exactly one
request holding all the files, for every budget — the batching loop never
runs, so no size check of any kind is applied to the single request. -/
theorem claim_C9_small_change_single_request (budget : Nat)
    (files : List ChangedFile) (h : files.length ≤ 3) :
    analyze_changes_plan budget files = [files] := by
  unfold analyze_changes_plan
  rw [if_neg (by omega)]

theorem claim_C9_small_change_single_request_witness :
    [sampleFile 50, sampleFile 60].length ≤ 3
    ∧ analyze_changes_plan 10 [sampleFile 50, sampleFile 60]
      = [[sampleFile 50, sampleFile 60]] :=
  ⟨by decide,
   claim_C9_small_change_single_request 10 [sampleFile 50, sampleFile 60]
     (by decide)⟩

/-- C10: any ledger row for a key — including one written with flag 0 — makes
`is_processed` return the stored flag (non-`None`), and such commits are
excluded by `fetch_recent_commits`; for keys with no row at all,
`is_processed` returns `None` (not `False`), and only such commits are ever
selected. -/
theorem claim_C10_ledger_row_semantics (db : List LedgerRow) (p i : String)
    (start : Int) (recent : List Commit) :
    ((∃ r ∈ db, r.project = p ∧ r.commit_id = i) → (is_processed db p i).isSome)
    ∧ ((∀ r ∈ db, ¬(r.project = p ∧ r.commit_id = i)) →
        is_processed db p i = none)
    ∧ (∀ c ∈ recent, (is_processed db p c.id).isSome →
        c ∉ fetch_recent_commits db p start recent)
    ∧ (∀ c ∈ fetch_recent_commits db p start recent,
        is_processed db p c.id = none) := by
  refine ⟨?_, ?_, ?_, ?_⟩
  · rintro ⟨r, hr, hp, hi⟩
    rw [is_processed]
    rw [Option.isSome_map']
    rw [List.find?_isSome]
    exact ⟨r, hr, by simp [keyMatches, hp, hi]⟩
  · intro h
    rw [is_processed, List.find?_eq_none.2]
    · rfl
    · intro r hr hk
      exact h r hr ((keyMatches_iff p i r).1 hk)
  · intro c hc hs hmem
    have hn := ((mem_fetch_iff db p start recent c).1 hmem).2.2
    rw [hn] at hs
    simp at hs
  · intro c hc
    exact ((mem_fetch_iff db p start recent c).1 hc).2.2

theorem claim_C10_ledger_row_semantics_witness :
    (is_processed [LedgerRow.mk "p" "c0" 0 7] "p" "c0").isSome
    ∧ is_processed [] "p" "c0" = none
    ∧ Commit.mk "c0" 9 "t" "a" ∉
        fetch_recent_commits [LedgerRow.mk "p" "c0" 0 7] "p" 0
          [Commit.mk "c0" 9 "t" "a"] :=
  ⟨(claim_C10_ledger_row_semantics [LedgerRow.mk "p" "c0" 0 7] "p" "c0" 0 []).1
     ⟨LedgerRow.mk "p" "c0" 0 7, List.mem_singleton.2 rfl, rfl, rfl⟩,
   (claim_C10_ledger_row_semantics [] "p" "c0" 0 []).2.1
     (fun r hr => absurd hr (List.not_mem_nil r)),
   (claim_C10_ledger_row_semantics [LedgerRow.mk "p" "c0" 0 7] "p" "c0" 0
      [Commit.mk "c0" 9 "t" "a"]).2.2.1 (Commit.mk "c0" 9 "t" "a")
     (by decide) (by decide)⟩
